import Mathlib

/-!
Verification of the easyReview backend against its specification.

This file is a shallow embedding of the backend's ingestion pipeline
(`backend/api/handlers/fetch.py`), the open-fields reconciler
(`backend/api/handlers/openfields.py`) and the field-count endpoint
(`backend/api/handlers/review.py`), together with theorems settling the
frozen claims about them.

Modelling conventions:
* The `easyDataverse` pydantic objects that the pipeline walks are embedded
  as the `PyVal` rose tree: `vnone` is Python `None`, `vstr` a scalar leaf,
  `vlist` a Python list, and `vnode` a pydantic model whose iteration yields
  the `(field name, value)` pairs in declaration order and whose
  `model_fields` mapping (`FieldInfo`: json-schema `typeClass`, the
  `multiple` flag, the description) is stored inline with each field.
* The Django rows written by the pipeline are embedded as nested lists
  (`Store` / `ReviewRow` / `BlockRow` / `CompoundRow` / `FieldRow`);
  the foreign keys of the relational layout become list containment.
  UUID primary keys and timestamps are external inputs, so freshly
  generated review ids are passed in as an explicit argument.
* Where the Python would raise an uncaught exception (iterating `None`,
  `Review.objects.get` on duplicate rows) the model either takes a
  documented harmless default or returns `serverError`; all theorems that
  could be affected carry well-formedness hypotheses keeping them on the
  non-raising paths.
-/

/-- Per-field schema metadata, `model_fields[name]` in the Python source:
`json_schema_extra["typeClass"]`, `json_schema_extra.get("multiple", False)`
(an absent key is the value `false`) and `description`. -/
structure FieldInfo where
  typeClass : String
  multiple : Bool
  description : String
deriving DecidableEq

/-- Embedded Python value as seen by the ingestion pipeline. -/
inductive PyVal where
  | vnone : PyVal
  | vstr (s : String) : PyVal
  | vlist (xs : List PyVal) : PyVal
  | vnode (fields : List (String × FieldInfo × PyVal)) : PyVal

/-- `value is None`. -/
def is_none : PyVal → Bool
  | .vnone => true
  | _ => false

/-- `value == []` (true exactly for the empty Python list). -/
def is_empty_list : PyVal → Bool
  | .vlist [] => true
  | _ => false

/-- Whether the value is a pydantic model, i.e. `hasattr(v, "model_fields")`. -/
def is_node : PyVal → Bool
  | .vnode _ => true
  | _ => false

mutual

/-- `_is_empty` from `fetch.py`: `True` for any value without `model_fields`;
for a model, loop over its fields with the iterate-and-overwrite `empty`
accumulator, returning `False` at the first non-empty field and otherwise
the verdict of the last field examined. -/
def is_empty : PyVal → Bool
  | .vnode fields => is_empty_loop true fields
  | _ => true

/-- The `for field_name, value in metadatablock` loop of `_is_empty`,
with the running `empty` accumulator as first argument. -/
def is_empty_loop : Bool → List (String × FieldInfo × PyVal) → Bool
  | e, [] => e
  | _, (_, info, value) :: rest =>
    let e := field_empty info value
    if e = false then e else is_empty_loop e rest

/-- One iteration of the `_is_empty` loop: the per-field emptiness verdict.
In the two `multiple` branches Python iterates `value`; a non-list value
there would raise `TypeError`, so the model takes the harmless default
`true` (theorems about these branches assume well-formed documents). -/
def field_empty (info : FieldInfo) (value : PyVal) : Bool :=
  if (info.typeClass == "compound") && info.multiple then
    match value with
    | .vlist xs => all_empty xs
    | _ => true
  else if info.typeClass == "compound" then
    is_empty value
  else if info.multiple then
    match value with
    | .vlist xs => xs.all is_none
    | _ => true
  else
    is_none value

/-- `all([_is_empty(entry) for entry in value])`. -/
def all_empty : List PyVal → Bool
  | [] => true
  | v :: vs => is_empty v && all_empty vs

end

mutual

/-- `True` iff every reachable leaf of the value is `None`: the
schema-independent traversal through lists and model fields that the
specification's "no reachable leaf value is non-null" refers to. -/
def all_leaves_null : PyVal → Bool
  | .vnone => true
  | .vstr _ => false
  | .vlist xs => leaves_null_list xs
  | .vnode fs => leaves_null_fields fs

def leaves_null_list : List PyVal → Bool
  | [] => true
  | v :: vs => all_leaves_null v && leaves_null_list vs

def leaves_null_fields : List (String × FieldInfo × PyVal) → Bool
  | [] => true
  | (_, _, v) :: rest => all_leaves_null v && leaves_null_fields rest

end

/-- A scalar leaf: `None` or a string value. -/
def is_leaf : PyVal → Bool
  | .vnone => true
  | .vstr _ => true
  | _ => false

mutual

/-- Well-formedness of a document with respect to its inline schema: each
field's runtime value has the shape its `FieldInfo` promises, so `_is_empty`
never iterates a non-list.  A compound instance may be `None` or a nested
model; a `multiple` field always holds a list. -/
def wf_entry : PyVal → Bool
  | .vnone => true
  | .vnode fs => wf_fields fs
  | _ => false

def wf_fields : List (String × FieldInfo × PyVal) → Bool
  | [] => true
  | (_, info, v) :: rest => wf_field info v && wf_fields rest

def wf_field (info : FieldInfo) (v : PyVal) : Bool :=
  if (info.typeClass == "compound") && info.multiple then
    match v with
    | .vlist xs => wf_entries xs
    | _ => false
  else if info.typeClass == "compound" then
    wf_entry v
  else if info.multiple then
    match v with
    | .vlist xs => xs.all is_leaf
    | _ => false
  else
    is_leaf v

def wf_entries : List PyVal → Bool
  | [] => true
  | v :: vs => wf_entry v && wf_entries vs

end

/-- Python `field_name.startswith("_")`, modelled on the character
sequence (Lean's byte-level `String` primitives do not reduce in the
kernel, the character list does). -/
def starts_with_underscore (s : String) : Bool :=
  match s.data with
  | [] => false
  | c :: _ => c == '_'

/-- A `Field` row (`reviews/models.py`): name, description, stringified
value, the history JSON map, and the tri-state `accepted` flag whose
database default is `None`; ingestion never passes `accepted`, so created
rows carry `none`. -/
structure FieldRow where
  name : String
  description : String
  value : String
  history : List (String × String)
  accepted : Option Bool
deriving DecidableEq

/-- A `Compound` row together with the `Field` rows whose `compound`
foreign key points at it. -/
structure CompoundRow where
  name : String
  fields : List FieldRow
deriving DecidableEq

/-- A `Metadatablock` row together with its direct primitive `Field` rows
(reverse relation `primitives`) and its `Compound` rows. -/
structure BlockRow where
  name : String
  primitives : List FieldRow
  compounds : List CompoundRow
deriving DecidableEq

/-- A `Review` row with its owned blocks.  The UUID primary key and the
creation timestamp are externally generated, so the id is an explicit
field and the timestamp (read by no modelled endpoint) is omitted. -/
structure ReviewRow where
  id : String
  doi : String
  site_url : String
  revision : Nat
  blocks : List BlockRow
deriving DecidableEq

/-- The persisted database state visible to the modelled handlers. -/
structure Store where
  reviews : List ReviewRow
deriving DecidableEq

/-- `str(value)` on the scalar shapes the pipeline can reach.  The callers
only apply it to non-`None` scalars (lists are joined first), so the
`vnone`/`vlist`/`vnode` rows of this match are unreachable defaults. -/
def py_str : PyVal → String
  | .vnone => "None"
  | .vstr s => s
  | .vlist _ => ""
  | .vnode _ => ""

/-- `_process_primitive` from `fetch.py`: join list values with `", "`,
stringify, and seed the history map with key `"Original"`. -/
def _process_primitive (name : String) (value : PyVal) (info : FieldInfo) :
    FieldRow :=
  let v := match value with
    | .vlist xs => String.intercalate ", " (xs.map py_str)
    | other => py_str other
  { name := name
    description := info.description
    value := v
    history := [("Original", v)]
    accepted := none }

/-- The `for field_name, value in compound` loop of `_process_compound`:
skip underscore-prefixed names and `None` values (and nothing else),
create a `Field` row for every other sub-field. -/
def _process_compound_fields :
    List (String × FieldInfo × PyVal) → List FieldRow
  | [] => []
  | (name, info, value) :: rest =>
    if starts_with_underscore name || is_none value then
      _process_compound_fields rest
    else
      _process_primitive name value info :: _process_compound_fields rest

/-- `_process_compound` applied to one compound entry.  Python iterates the
entry, which raises for a non-model; the empty default is unreachable for
documents produced by the client library. -/
def _process_compound_entry : PyVal → List FieldRow
  | .vnode fs => _process_compound_fields fs
  | _ => []

/-- `if not isinstance(value, list): value = [value]` — the normalisation
of a compound value to its list of entries. -/
def py_entries : PyVal → List PyVal
  | .vlist xs => xs
  | other => [other]

/-- `_process_metadatablock` from `fetch.py`: walk the block's fields in
order; skip underscore-prefixed names, `None` values and empty-list
values; create a direct `Field` row for each non-compound field and one
`Compound` row (with its sub-fields) per entry of each compound field. -/
def _process_metadatablock :
    List (String × FieldInfo × PyVal) → List FieldRow × List CompoundRow
  | [] => ([], [])
  | (name, info, value) :: rest =>
    let (ps, cs) := _process_metadatablock rest
    if starts_with_underscore name then (ps, cs)
    else if is_none value then (ps, cs)
    else if is_empty_list value then (ps, cs)
    else if !(info.typeClass == "compound") then
      (_process_primitive name value info :: ps, cs)
    else
      (ps,
        (py_entries value).map
          (fun e => { name := name, fields := _process_compound_entry e })
          ++ cs)

/-- Field rows produced for one metadata block value.  A block that is not
a model cannot be iterated; such blocks are always `_is_empty` and thus
never reach this point, so the default is unreachable. -/
def process_block_val : PyVal → List FieldRow × List CompoundRow
  | .vnode fs => _process_metadatablock fs
  | _ => ([], [])

/-- Outcome of the fetch-dataset endpoint: the serialized review with
HTTP 200, a 400 with a message, or an uncaught exception surfacing as a
server error (`Review.objects.get` with duplicate DOI rows). -/
inductive FetchResponse where
  | ok (review : ReviewRow) : FetchResponse
  | badRequest (message : String) : FetchResponse
  | serverError : FetchResponse
deriving DecidableEq

/-- `fetch_dataset` from `fetch.py`.  `fresh_id` is the externally drawn
UUID for a newly created review; `remote` is the block dictionary of the
dataset the external Dataverse client would return (the client object
construction itself touches no store state and the api token is only
passed through to it).  Returns the response together with the resulting
store. -/
def fetch_dataset (fresh_id : String)
    (site_url doi _api_token : Option String)
    (store : Store) (remote : List (String × PyVal)) :
    FetchResponse × Store :=
  match site_url, doi with
  | some su, some d =>
    let existing := store.reviews.filter (fun r => r.doi == d)
    if existing.isEmpty then
      let blocks := remote.filterMap (fun p =>
        if is_empty p.2 then none
        else some { name := p.1
                    primitives := (process_block_val p.2).1
                    compounds := (process_block_val p.2).2 : BlockRow })
      let review : ReviewRow :=
        { id := fresh_id, doi := d, site_url := su, revision := 1
          blocks := blocks }
      (.ok review, { reviews := store.reviews ++ [review] })
    else
      match existing with
      | [r] => (.ok r, store)
      | _ => (.serverError, store)
  | _, _ =>
    (.badRequest "Missing either 'site_url' or 'doi' to fetch the dataset.",
      store)

/-- Python `site_url.endswith("/")`, character-level. -/
def ends_with_slash (s : String) : Bool :=
  match s.data.getLast? with
  | some c => c == '/'
  | none => false

/-- Python `site_url[:-1]`: the string without its final character. -/
def drop_last (s : String) : String := ⟨s.data.dropLast⟩

/-- One entry of a remote field's `childFields` mapping: the schema `name`
and the human-readable `displayName`. -/
structure ChildField where
  name : String
  displayName : String
deriving DecidableEq

/-- One entry of the remote schema's `data.fields` mapping.  `childFields`
is `none` when the JSON object has no `\x22childFields\x22` key; the handlers
only read the mappings' values, so both mappings are embedded as lists in
insertion order. -/
structure SchemaField where
  displayName : String
  childFields : Option (List ChildField)
deriving DecidableEq

/-- One element of the computed `compounds` list: the normalised compound
name and its normalised child field names. -/
structure CompoundOut where
  name : String
  childFields : List String
deriving DecidableEq

/-- `displayName.replace(" ", "_").lower()`: replacing the one-character
substring `" "` and lowercasing commute, so this is the per-character map
sending a space to an underscore and any other character to its lower
case (character-level, for the same kernel-reduction reason as
`starts_with_underscore`). -/
def normalize_display (s : String) : String :=
  ⟨s.data.map (fun c => if c = ' ' then '_' else c.toLower)⟩

/-- `_get_child_field_names` from `openfields.py`: the raw `name` of every
child field of every field. -/
def _get_child_field_names (fields : List SchemaField) : List String :=
  fields.flatMap (fun f => ((f.childFields.getD []).map (fun c => c.name)))

/-- `_retrieve_primitives` from `openfields.py`: the normalised display
names of the fields whose display name is not among the child names and
which carry no `childFields` key. -/
def _retrieve_primitives (fields : List SchemaField) : List String :=
  let child_field_names := _get_child_field_names fields
  (fields.filter (fun f =>
      !(child_field_names.contains f.displayName) && f.childFields.isNone)).map
    (fun f => normalize_display f.displayName)

/-- `_retrieve_compounds` from `openfields.py`: for each field carrying a
`childFields` key, its normalised display name with the normalised display
names of its children. -/
def _retrieve_compounds (fields : List SchemaField) : List CompoundOut :=
  fields.filterMap (fun f =>
    match f.childFields with
    | none => none
    | some cfs =>
      some { name := normalize_display f.displayName
             childFields := cfs.map (fun c => normalize_display c.displayName) })

/-- The per-block result of the open-fields computation. -/
structure OpenBlockFields where
  name : String
  primitives : List String
  compounds : List CompoundOut
deriving DecidableEq

/-- The pure part of `_fetch_open_metadatablock_fields`: primitives and
compounds over the already-fetched payload (the two worker tasks run pure
functions on the same immutable payload and are joined, so their result is
their sequential composition), then the removal of every primitive that
appears among some compound's child fields. -/
def open_fields (blockName : String) (fields : List SchemaField) :
    OpenBlockFields :=
  let primitives := _retrieve_primitives fields
  let compounds := _retrieve_compounds fields
  let all_compound_fields := compounds.flatMap (fun c => c.childFields)
  { name := blockName
    primitives := primitives.filter (fun p => !(all_compound_fields.contains p))
    compounds := compounds }

/-- Outcome of the open-fields endpoint. -/
inductive OpenFieldsResponse where
  | ok (data : List OpenBlockFields) : OpenFieldsResponse
  | notFound (message : String) : OpenFieldsResponse
deriving DecidableEq

/-- `fetch_open_metadatablock_fields_for_review` from `openfields.py`.
`schemaOf` maps a request URL to the `data.fields` payload the remote
would answer with.  The second component of the result is the list of
URLs actually requested, in order — the observable remote traffic. -/
def fetch_open_fields (review_pk : String) (store : Store)
    (schemaOf : String → List SchemaField) :
    OpenFieldsResponse × List String :=
  match store.reviews.find? (fun r => r.id == review_pk) with
  | none =>
    (.notFound ("Review with ID '" ++ review_pk ++ "' does not exist."), [])
  | some review =>
    let site_url :=
      if ends_with_slash review.site_url then drop_last review.site_url
      else review.site_url
    let urls := review.blocks.map
      (fun mb => site_url ++ "/api/metadatablocks/" ++ mb.name)
    (.ok (review.blocks.map
        (fun mb => open_fields mb.name
          (schemaOf (site_url ++ "/api/metadatablocks/" ++ mb.name)))),
      urls)

/-- One row of `values_list("metadatablocks__primitives__accepted")` per
joined tuple: the reverse foreign keys are traversed with left outer
joins, so a review without blocks, or a block without direct primitives,
still contributes a single `NULL` row. -/
def join_block_primitives (r : ReviewRow) : List (Option Bool) :=
  if r.blocks = [] then [none]
  else r.blocks.flatMap (fun b =>
    if b.primitives = [] then [none]
    else b.primitives.map (fun f => f.accepted))

/-- `values_list("metadatablocks__compounds__primitives__accepted")` under
the same left-outer-join semantics. -/
def join_compound_primitives (r : ReviewRow) : List (Option Bool) :=
  if r.blocks = [] then [none]
  else r.blocks.flatMap (fun b =>
    if b.compounds = [] then [none]
    else b.compounds.flatMap (fun c =>
      if c.fields = [] then [none]
      else c.fields.map (fun f => f.accepted)))

/-- `get_field_count` from `review.py`: the two joined accepted-flag lists,
`field_count = len(primitive_fields) + len(compound_fields) - 1`, and the
number of entries that are literally `True`. -/
def get_field_count (review_id : String) (store : Store) : Int × Nat :=
  let matched := store.reviews.filter (fun r => r.id == review_id)
  let primitive_fields := matched.flatMap join_block_primitives
  let compound_fields := matched.flatMap join_compound_primitives
  let field_count : Int :=
    (primitive_fields.length : Int) + (compound_fields.length : Int) - 1
  let accepted_fields :=
    ((primitive_fields ++ compound_fields).filter
      (fun x => x == some true)).length
  (field_count, accepted_fields)

@[simp] lemma is_empty_vnone : is_empty .vnone = true := by simp [is_empty]
@[simp] lemma is_empty_vstr (s : String) : is_empty (.vstr s) = true := by simp [is_empty]
@[simp] lemma is_empty_vlist (xs : List PyVal) : is_empty (.vlist xs) = true := by simp [is_empty]
@[simp] lemma is_empty_vnode (fs : List (String × FieldInfo × PyVal)) :
    is_empty (.vnode fs) = is_empty_loop true fs := by simp [is_empty]
@[simp] lemma is_empty_loop_nil (e : Bool) : is_empty_loop e [] = e := by simp [is_empty_loop]
lemma is_empty_loop_cons (e : Bool) (n : String) (i : FieldInfo) (v : PyVal)
    (rest : List (String × FieldInfo × PyVal)) :
    is_empty_loop e ((n, i, v) :: rest) =
      if field_empty i v = false then false else is_empty_loop (field_empty i v) rest := by
  rw [is_empty_loop]
  by_cases h : field_empty i v = false <;> simp [h]
@[simp] lemma all_empty_nil : all_empty [] = true := by simp [all_empty]
@[simp] lemma all_empty_cons (v : PyVal) (vs : List PyVal) :
    all_empty (v :: vs) = (is_empty v && all_empty vs) := by simp [all_empty]
@[simp] lemma all_leaves_null_vnone : all_leaves_null .vnone = true := by simp [all_leaves_null]
@[simp] lemma all_leaves_null_vstr (s : String) : all_leaves_null (.vstr s) = false := by
  simp [all_leaves_null]
@[simp] lemma all_leaves_null_vlist (xs : List PyVal) :
    all_leaves_null (.vlist xs) = leaves_null_list xs := by simp [all_leaves_null]
@[simp] lemma all_leaves_null_vnode (fs : List (String × FieldInfo × PyVal)) :
    all_leaves_null (.vnode fs) = leaves_null_fields fs := by simp [all_leaves_null]
@[simp] lemma leaves_null_list_nil : leaves_null_list [] = true := by simp [leaves_null_list]
@[simp] lemma leaves_null_list_cons (v : PyVal) (vs : List PyVal) :
    leaves_null_list (v :: vs) = (all_leaves_null v && leaves_null_list vs) := by
  simp [leaves_null_list]
@[simp] lemma leaves_null_fields_nil : leaves_null_fields [] = true := by
  simp [leaves_null_fields]
@[simp] lemma leaves_null_fields_cons (n : String) (i : FieldInfo) (v : PyVal)
    (rest : List (String × FieldInfo × PyVal)) :
    leaves_null_fields ((n, i, v) :: rest) =
      (all_leaves_null v && leaves_null_fields rest) := by simp [leaves_null_fields]
@[simp] lemma wf_entry_vnone : wf_entry .vnone = true := by simp [wf_entry]
@[simp] lemma wf_entry_vstr (s : String) : wf_entry (.vstr s) = false := by simp [wf_entry]
@[simp] lemma wf_entry_vlist (xs : List PyVal) : wf_entry (.vlist xs) = false := by
  simp [wf_entry]
@[simp] lemma wf_entry_vnode (fs : List (String × FieldInfo × PyVal)) :
    wf_entry (.vnode fs) = wf_fields fs := by simp [wf_entry]
@[simp] lemma wf_fields_nil : wf_fields [] = true := by simp [wf_fields]
@[simp] lemma wf_fields_cons (n : String) (i : FieldInfo) (v : PyVal)
    (rest : List (String × FieldInfo × PyVal)) :
    wf_fields ((n, i, v) :: rest) = (wf_field i v && wf_fields rest) := by simp [wf_fields]
@[simp] lemma wf_entries_nil : wf_entries [] = true := by simp [wf_entries]
@[simp] lemma wf_entries_cons (v : PyVal) (vs : List PyVal) :
    wf_entries (v :: vs) = (wf_entry v && wf_entries vs) := by simp [wf_entries]
lemma wf_field_def (info : FieldInfo) (v : PyVal) :
    wf_field info v =
      if (info.typeClass == "compound") && info.multiple then
        match v with
        | .vlist xs => wf_entries xs
        | _ => false
      else if info.typeClass == "compound" then
        wf_entry v
      else if info.multiple then
        match v with
        | .vlist xs => xs.all is_leaf
        | _ => false
      else
        is_leaf v := by
  cases v <;> rw [wf_field] <;> simp
lemma field_empty_def (info : FieldInfo) (v : PyVal) :
    field_empty info v =
      if (info.typeClass == "compound") && info.multiple then
        match v with
        | .vlist xs => all_empty xs
        | _ => true
      else if info.typeClass == "compound" then
        is_empty v
      else if info.multiple then
        match v with
        | .vlist xs => xs.all is_none
        | _ => true
      else
        is_none v := by
  cases v <;> rw [field_empty] <;> simp

theorem is_empty_loop_eq_all (fs : List (String × FieldInfo × PyVal)) :
    is_empty_loop true fs = fs.all (fun t => field_empty t.2.1 t.2.2) := by
  induction fs with
  | nil => simp
  | cons hd tl ih =>
    obtain ⟨n, i, v⟩ := hd
    rw [is_empty_loop_cons]
    cases h : field_empty i v with
    | false => simp [h]
    | true => simp [h, ih]

theorem all_is_none_eq_leaves (xs : List PyVal) (h : xs.all is_leaf = true) :
    xs.all is_none = leaves_null_list xs := by
  induction xs with
  | nil => simp
  | cons y ys ih =>
    simp only [List.all_cons, Bool.and_eq_true] at h
    rw [leaves_null_list_cons, List.all_cons, ih h.2]
    cases y with
    | vnone => simp [is_none]
    | vstr s => simp [is_none]
    | vlist zs => simp [is_leaf] at h
    | vnode fs => simp [is_leaf] at h

mutual

theorem field_empty_eq_leaves (info : FieldInfo) :
    ∀ (v : PyVal), wf_field info v = true → field_empty info v = all_leaves_null v
  | .vnone, _ => by
    rw [field_empty_def]
    split_ifs <;> simp [is_none]
  | .vstr s, h => by
    rw [wf_field_def] at h
    rw [field_empty_def]
    split_ifs at h ⊢ <;> simp_all [is_none, is_leaf]
  | .vlist xs, h => by
    rw [wf_field_def] at h
    rw [field_empty_def]
    split_ifs at h ⊢
    · rw [all_leaves_null_vlist]
      exact entries_empty_eq_leaves xs (by simpa using h)
    · simp at h
    · rw [all_leaves_null_vlist]
      exact all_is_none_eq_leaves xs (by simpa using h)
    · simp [is_leaf] at h
  | .vnode fs, h => by
    rw [wf_field_def] at h
    rw [field_empty_def]
    split_ifs at h ⊢
    · rw [is_empty_vnode, all_leaves_null_vnode]
      exact fields_empty_eq_leaves fs (by simpa using h)
    · simp [is_leaf] at h

theorem entry_empty_eq_leaves :
    ∀ (v : PyVal), wf_entry v = true → is_empty v = all_leaves_null v
  | .vnone, _ => by simp
  | .vstr s, h => by simp at h
  | .vlist xs, h => by simp at h
  | .vnode fs, h => by
    rw [is_empty_vnode, all_leaves_null_vnode]
    exact fields_empty_eq_leaves fs (by simpa using h)

theorem entries_empty_eq_leaves :
    ∀ (xs : List PyVal), wf_entries xs = true → all_empty xs = leaves_null_list xs
  | [], _ => by simp
  | y :: ys, h => by
    rw [wf_entries_cons, Bool.and_eq_true] at h
    rw [all_empty_cons, leaves_null_list_cons, entry_empty_eq_leaves y h.1,
      entries_empty_eq_leaves ys h.2]

theorem fields_empty_eq_leaves :
    ∀ (fs : List (String × FieldInfo × PyVal)), wf_fields fs = true →
      is_empty_loop true fs = leaves_null_fields fs
  | [], _ => by simp
  | (n, i, v) :: rest, h => by
    rw [wf_fields_cons, Bool.and_eq_true] at h
    rw [is_empty_loop_cons, leaves_null_fields_cons,
      field_empty_eq_leaves i v h.1]
    cases hv : all_leaves_null v with
    | false => simp
    | true => simp [fields_empty_eq_leaves rest h.2]

end

/-- `all([...])` over entries agrees with `List.all`. -/
lemma all_empty_eq_all (xs : List PyVal) : all_empty xs = xs.all is_empty := by
  induction xs with
  | nil => simp
  | cons y ys ih => simp [ih]

/-- The per-field verdict of a `None` value is `empty` in every branch of
`_is_empty`. -/
lemma field_empty_vnone (info : FieldInfo) : field_empty info .vnone = true := by
  rw [field_empty_def]
  split_ifs <;> simp [is_none]

/-- C2: the emptiness check `_is_empty` computes, for each field in
declaration order, the documented per-field verdict — a repeatable
compound is empty iff every instance is recursively empty, a single
compound iff it is recursively empty, a repeatable primitive iff every
element is null, a single primitive iff its value is null — returning
false at the first non-empty field and otherwise the verdict of the last
field examined, which makes the result of a model the conjunction of the
per-field verdicts; a node with zero fields, or a value lacking a field
schema, is reported empty; and on well-formed documents the verdict is
true iff no reachable leaf value is non-null. -/
theorem is_empty_matches_contract :
    (∀ i xs, i.typeClass = "compound" → i.multiple = true →
      field_empty i (.vlist xs) = xs.all is_empty)
    ∧ (∀ i v, i.typeClass = "compound" → i.multiple = false →
      field_empty i v = is_empty v)
    ∧ (∀ i xs, i.typeClass ≠ "compound" → i.multiple = true →
      field_empty i (.vlist xs) = xs.all is_none)
    ∧ (∀ i v, i.typeClass ≠ "compound" → i.multiple = false →
      field_empty i v = is_none v)
    ∧ (∀ fs, is_empty (.vnode fs) =
        fs.all (fun t => field_empty t.2.1 t.2.2))
    ∧ is_empty (.vnode []) = true
    ∧ (∀ v, is_node v = false → is_empty v = true)
    ∧ (∀ fs, wf_fields fs = true →
        (is_empty (.vnode fs) = true ↔ leaves_null_fields fs = true)) := by
  refine ⟨fun i xs hc hm => ?_, fun i v hc hm => ?_, fun i xs hc hm => ?_,
    fun i v hc hm => ?_, fun fs => ?_, by simp, fun v hv => ?_, fun fs hwf => ?_⟩
  · rw [field_empty_def]
    simp [hc, hm, all_empty_eq_all]
  · rw [field_empty_def]
    simp [hc, hm]
  · rw [field_empty_def]
    simp [hc, hm]
  · rw [field_empty_def]
    simp [hc, hm]
  · rw [is_empty_vnode, is_empty_loop_eq_all]
  · cases v <;> simp_all [is_node]
  · rw [is_empty_vnode, fields_empty_eq_leaves fs hwf]

/-- A concrete two-field document exercising the claim-C2 theorem: a
well-formed node whose emptiness verdict matches the reachable-leaf
criterion, and a schemaless value reported empty. -/
theorem is_empty_matches_contract_witness :
    (("compound" : String) ≠ "primitive"
      ∧ field_empty ⟨"primitive", false, "d"⟩ (.vstr "x")
          = is_none (.vstr "x"))
    ∧ (is_node (.vstr "x") = false ∧ is_empty (.vstr "x") = true)
    ∧ (wf_fields
          [("title", ⟨"primitive", false, "Title"⟩, .vstr "My Dataset"),
           ("author", ⟨"compound", true, "Author"⟩,
             .vlist [.vnode
               [("authorName", ⟨"primitive", false, "Name"⟩, .vnone)]])] = true
        ∧ (is_empty (.vnode
              [("title", ⟨"primitive", false, "Title"⟩, .vstr "My Dataset"),
               ("author", ⟨"compound", true, "Author"⟩,
                 .vlist [.vnode
                   [("authorName", ⟨"primitive", false, "Name"⟩, .vnone)]])])
              = true
            ↔ leaves_null_fields
              [("title", ⟨"primitive", false, "Title"⟩, .vstr "My Dataset"),
               ("author", ⟨"compound", true, "Author"⟩,
                 .vlist [.vnode
                   [("authorName", ⟨"primitive", false, "Name"⟩, .vnone)]])]
              = true)) :=
  ⟨⟨by decide,
    is_empty_matches_contract.2.2.2.1 ⟨"primitive", false, "d"⟩ (.vstr "x")
      (by decide) rfl⟩,
   ⟨rfl, is_empty_matches_contract.2.2.2.2.2.2.1 (.vstr "x") rfl⟩,
   by simp [wf_field_def, is_leaf],
   is_empty_matches_contract.2.2.2.2.2.2.2 _ (by simp [wf_field_def, is_leaf])⟩

/-- C5: a fetch-dataset request missing `site_url` or `doi` is answered
with HTTP 400 and the documented message, and the store is untouched — no
`Review` row (nor any other row) is created. -/
theorem fetch_missing_param_is_400 (fresh_id : String)
    (site_url doi tok : Option String) (store : Store)
    (remote : List (String × PyVal)) (h : site_url = none ∨ doi = none) :
    fetch_dataset fresh_id site_url doi tok store remote =
      (.badRequest "Missing either 'site_url' or 'doi' to fetch the dataset.",
        store) := by
  cases h with
  | inl h => subst h; cases doi <;> rfl
  | inr h => subst h; cases site_url <;> rfl

/-- The claim-C5 theorem applied to a request with a DOI but no site URL,
against a non-empty store. -/
theorem fetch_missing_param_is_400_witness :
    fetch_dataset "id9" none (some "10.5/xyz") none
        ⟨[⟨"rid", "10.1/abc", "http://dv", 1, []⟩]⟩ [] =
      (.badRequest "Missing either 'site_url' or 'doi' to fetch the dataset.",
        ⟨[⟨"rid", "10.1/abc", "http://dv", 1, []⟩]⟩) :=
  fetch_missing_param_is_400 "id9" none (some "10.5/xyz") none
    ⟨[⟨"rid", "10.1/abc", "http://dv", 1, []⟩]⟩ [] (Or.inl rfl)

/-- C1: fetching a DOI for which a `Review` row already exists returns
that review's representation with HTTP 200 and leaves the store exactly
as it was — no `Review`, `Metadatablock`, `Compound` or `Field` row is
added, whatever the remote document holds (the flattener never runs). -/
theorem fetch_existing_doi_returns_existing (fresh_id su d : String)
    (tok : Option String) (store : Store) (remote : List (String × PyVal))
    (r : ReviewRow)
    (h : store.reviews.filter (fun x => x.doi == d) = [r]) :
    fetch_dataset fresh_id (some su) (some d) tok store remote =
      (.ok r, store) := by
  simp only [fetch_dataset, h]
  rfl

/-- The claim-C1 theorem applied to a store already holding the DOI
`10.1/abc`, with a remote document that would otherwise create rows. -/
theorem fetch_existing_doi_returns_existing_witness :
    fetch_dataset "newid" (some "http://dv") (some "10.1/abc") none
        ⟨[⟨"rid", "10.1/abc", "http://dv", 1, []⟩]⟩
        [("citation", .vnode [("title", ⟨"primitive", false, "T"⟩,
          .vstr "x")])] =
      (.ok ⟨"rid", "10.1/abc", "http://dv", 1, []⟩,
        ⟨[⟨"rid", "10.1/abc", "http://dv", 1, []⟩]⟩) :=
  fetch_existing_doi_returns_existing "newid" "http://dv" "10.1/abc" none
    ⟨[⟨"rid", "10.1/abc", "http://dv", 1, []⟩]⟩
    [("citation", .vnode [("title", ⟨"primitive", false, "T"⟩, .vstr "x")])]
    ⟨"rid", "10.1/abc", "http://dv", 1, []⟩ rfl

/-- C9: the open-fields endpoint answers a review identifier absent from
the store with HTTP 404 and a message naming the missing id, and performs
no remote request at all (the list of requested URLs is empty). -/
theorem open_fields_unknown_review_404 (pk : String) (store : Store)
    (schemaOf : String → List SchemaField)
    (h : ∀ r ∈ store.reviews, r.id ≠ pk) :
    fetch_open_fields pk store schemaOf =
      (.notFound ("Review with ID '" ++ pk ++ "' does not exist."), []) := by
  have hnone : store.reviews.find? (fun r => r.id == pk) = none := by
    rw [List.find?_eq_none]
    intro r hr
    simp [h r hr]
  simp only [fetch_open_fields, hnone]

/-- The claim-C9 theorem applied to a store holding one unrelated review
and the unknown identifier `missing`. -/
theorem open_fields_unknown_review_404_witness :
    fetch_open_fields "missing" ⟨[⟨"other", "10.1/a", "http://dv", 1,
        [⟨"citation", [], []⟩]⟩]⟩ (fun _ => []) =
      (.notFound "Review with ID 'missing' does not exist.", []) :=
  open_fields_unknown_review_404 "missing"
    ⟨[⟨"other", "10.1/a", "http://dv", 1, [⟨"citation", [], []⟩]⟩]⟩
    (fun _ => []) (by decide)

/-- C7: a `Field` row created from a list-valued primitive stores the
list's elements joined with the two-character separator `", "`, and its
history map is `{"Original": s}` for that same joined string — and in
general every row `_process_primitive` creates has
`history = {"Original": value}`. -/
theorem primitive_list_value_joined (name : String) (info : FieldInfo)
    (xs : List String) :
    ((_process_primitive name (.vlist (xs.map .vstr)) info).value =
      String.intercalate ", " xs)
    ∧ ((_process_primitive name (.vlist (xs.map .vstr)) info).history =
      [("Original", String.intercalate ", " xs)])
    ∧ (∀ v, (_process_primitive name v info).history =
      [("Original", (_process_primitive name v info).value)]) := by
  have hmap : (xs.map PyVal.vstr).map py_str = xs := by
    rw [List.map_map]
    exact List.map_id'' (fun s => rfl) xs
  refine ⟨?_, ?_, fun v => ?_⟩
  · simp [_process_primitive, hmap]
  · simp [_process_primitive, hmap]
  · cases v <;> rfl

/-- The field whose schema metadata and value the claim-C8 and claim-C10
loops test: kept at block level iff the name does not start with an
underscore and the value is neither `None` nor the empty list. -/
def block_keep (t : String × FieldInfo × PyVal) : Bool :=
  !(starts_with_underscore t.1) && !(is_none t.2.2) && !(is_empty_list t.2.2)

lemma _process_metadatablock_cons (n : String) (i : FieldInfo) (v : PyVal)
    (rest : List (String × FieldInfo × PyVal)) :
    _process_metadatablock ((n, i, v) :: rest) =
      if starts_with_underscore n then _process_metadatablock rest
      else if is_none v then _process_metadatablock rest
      else if is_empty_list v then _process_metadatablock rest
      else if !(i.typeClass == "compound") then
        (_process_primitive n v i :: (_process_metadatablock rest).1,
          (_process_metadatablock rest).2)
      else
        ((_process_metadatablock rest).1,
          (py_entries v).map
            (fun e => { name := n, fields := _process_compound_entry e })
            ++ (_process_metadatablock rest).2) := rfl

/-- C8: the block-level flattening loop skips exactly the fields whose
name starts with an underscore or whose value is `None` or the empty
list: a skipped field contributes no `Field` or `Compound` row, every
kept non-compound field contributes its `Field` row, and every kept
compound field its `Compound` rows, in order. -/
theorem block_flatten_skips_null_and_private :
    (∀ t fs, block_keep t = false →
      _process_metadatablock (t :: fs) = _process_metadatablock fs)
    ∧ (∀ fs, (_process_metadatablock fs).1 =
        ((fs.filter block_keep).filter
            (fun t => !(t.2.1.typeClass == "compound"))).map
          (fun t => _process_primitive t.1 t.2.2 t.2.1))
    ∧ (∀ fs, (_process_metadatablock fs).2 =
        ((fs.filter block_keep).filter
            (fun t => t.2.1.typeClass == "compound")).flatMap
          (fun t => (py_entries t.2.2).map
            (fun e => { name := t.1, fields := _process_compound_entry e }))) := by
  have hskip : ∀ t fs, block_keep t = false →
      _process_metadatablock (t :: fs) = _process_metadatablock fs := by
    intro ⟨n, i, v⟩ fs hk
    rw [_process_metadatablock_cons]
    by_cases h1 : starts_with_underscore n
    · simp [h1]
    · by_cases h2 : is_none v
      · simp [h1, h2]
      · have h3 : is_empty_list v = true := by
          simp [block_keep, h1, h2] at hk
          exact hk
        simp [h1, h2, h3]
  refine ⟨hskip, fun fs => ?_, fun fs => ?_⟩
  · induction fs with
    | nil => rfl
    | cons t rest ih =>
      by_cases hk : block_keep t
      · obtain ⟨n, i, v⟩ := t
        simp only [block_keep, Bool.and_eq_true, Bool.not_eq_true'] at hk
        rw [_process_metadatablock_cons]
        rw [if_neg (by simp [hk.1.1]), if_neg (by simp [hk.1.2]),
          if_neg (by simp [hk.2])]
        rw [List.filter_cons_of_pos (by
          simp [block_keep, hk.1.1, hk.1.2, hk.2])]
        by_cases hc : i.typeClass == "compound"
        · rw [if_neg (by simp [hc]), List.filter_cons_of_neg (by simp [hc]), ih]
        · rw [if_pos (by simp [hc]), List.filter_cons_of_pos (by simp [hc])]
          simp [ih]
      · rw [hskip t rest (by simpa using hk),
          List.filter_cons_of_neg (by simpa using hk), ih]
  · induction fs with
    | nil => rfl
    | cons t rest ih =>
      by_cases hk : block_keep t
      · obtain ⟨n, i, v⟩ := t
        simp only [block_keep, Bool.and_eq_true, Bool.not_eq_true'] at hk
        rw [_process_metadatablock_cons]
        rw [if_neg (by simp [hk.1.1]), if_neg (by simp [hk.1.2]),
          if_neg (by simp [hk.2])]
        rw [List.filter_cons_of_pos (by
          simp [block_keep, hk.1.1, hk.1.2, hk.2])]
        by_cases hc : i.typeClass == "compound"
        · rw [if_neg (by simp [hc]), List.filter_cons_of_pos (by simp [hc])]
          simp [ih]
        · rw [if_pos (by simp [hc]), List.filter_cons_of_neg (by simp [hc])]
          simp [ih]
      · rw [hskip t rest (by simpa using hk),
          List.filter_cons_of_neg (by simpa using hk), ih]

/-- The claim-C8 theorem applied to a block holding one non-null primitive
next to a null sibling: the null sibling is skipped (no row), the non-null
primitive is persisted. -/
theorem block_flatten_skips_null_and_private_witness :
    block_keep ("subtitle", ⟨"primitive", false, "d"⟩, .vnone) = false
    ∧ _process_metadatablock
        [("subtitle", ⟨"primitive", false, "d"⟩, .vnone),
         ("title", ⟨"primitive", false, "d"⟩, .vstr "T")] =
      _process_metadatablock [("title", ⟨"primitive", false, "d"⟩, .vstr "T")]
    ∧ _process_metadatablock
        [("subtitle", ⟨"primitive", false, "d"⟩, .vnone),
         ("title", ⟨"primitive", false, "d"⟩, .vstr "T")] =
      ([⟨"title", "d", "T", [("Original", "T")], none⟩], []) :=
  ⟨rfl,
   block_flatten_skips_null_and_private.1
     ("subtitle", ⟨"primitive", false, "d"⟩, .vnone)
     [("title", ⟨"primitive", false, "d"⟩, .vstr "T")] rfl,
   rfl⟩

/-- C10: the compound-level loop, unlike the block-level one, skips only
underscore-prefixed names and `None` values — an empty-list sub-field is
kept and produces a `Field` row whose value is the empty string (the
`", "`-join of zero elements) with history `{"Original": ""}`. -/
theorem compound_flatten_keeps_empty_list :
    (∀ t fs, starts_with_underscore t.1 = false → is_none t.2.2 = false →
      _process_compound_fields (t :: fs) =
        _process_primitive t.1 t.2.2 t.2.1 :: _process_compound_fields fs)
    ∧ (∀ fs, _process_compound_fields fs =
        (fs.filter (fun t =>
            !(starts_with_underscore t.1) && !(is_none t.2.2))).map
          (fun t => _process_primitive t.1 t.2.2 t.2.1))
    ∧ (∀ n info, starts_with_underscore n = false →
        _process_compound_fields [(n, info, .vlist [])] =
          [{ name := n, description := info.description, value := "",
             history := [("Original", "")], accepted := none }]) := by
  refine ⟨fun ⟨n, i, v⟩ fs h1 h2 => ?_, fun fs => ?_, fun n info h1 => ?_⟩
  · rw [_process_compound_fields]
    simp at h1 h2
    rw [if_neg (by simp [h1, h2])]
  · induction fs with
    | nil => rfl
    | cons t rest ih =>
      obtain ⟨n, i, v⟩ := t
      rw [_process_compound_fields]
      by_cases h : starts_with_underscore n || is_none v
      · rw [if_pos h, ih, List.filter_cons_of_neg (by
          rcases Bool.or_eq_true_iff.mp h with h1 | h1 <;> simp [h1])]
      · simp only [Bool.or_eq_true, not_or, Bool.not_eq_true] at h
        rw [if_neg (by simp [h.1, h.2]), ih,
          List.filter_cons_of_pos (by simp [h.1, h.2])]
        rfl
  · rw [_process_compound_fields]
    rw [if_neg (by simp [h1, is_none]), _process_compound_fields]
    rfl

/-- The claim-C10 theorem applied to an empty-list keyword sub-field of a
compound entry: block level skips it, compound level keeps it with value
`""`. -/
theorem compound_flatten_keeps_empty_list_witness :
    _process_compound_fields
        [("keywords", ⟨"primitive", true, "kw"⟩, .vlist [])] =
      [{ name := "keywords", description := "kw", value := "",
         history := [("Original", "")], accepted := none }]
    ∧ _process_metadatablock
        [("keywords", ⟨"primitive", true, "kw"⟩, .vlist [])] = ([], []) :=
  ⟨compound_flatten_keeps_empty_list.2.2 "keywords" ⟨"primitive", true, "kw"⟩
    rfl, rfl⟩

lemma filter_map_filter {α β : Type} (g : α → β) (p : α → Bool) (q : β → Bool)
    (l : List α) :
    ((l.filter p).map g).filter q = (l.filter (fun a => p a && q (g a))).map g := by
  induction l with
  | nil => rfl
  | cons x xs ih =>
    by_cases hp : p x
    · by_cases hq : q (g x) <;> simp [hp, hq, ih]
    · simp [hp, ih]

lemma retrieve_compounds_eq (fs : List SchemaField) :
    _retrieve_compounds fs =
      (fs.filter (fun f => f.childFields.isSome)).map
        (fun f => { name := normalize_display f.displayName
                    childFields := (f.childFields.getD []).map
                      (fun c => normalize_display c.displayName) }) := by
  rw [_retrieve_compounds]
  induction fs with
  | nil => rfl
  | cons f rest ih =>
    rw [List.filterMap_cons, List.filter_cons]
    cases hcf : f.childFields with
    | none => simpa [hcf] using ih
    | some cfs => simp [hcf, ih]

lemma compound_children_flatten (fs : List SchemaField) :
    (_retrieve_compounds fs).flatMap (fun c => c.childFields) =
      fs.flatMap (fun g => (g.childFields.getD []).map
        (fun c => normalize_display c.displayName)) := by
  rw [retrieve_compounds_eq]
  induction fs with
  | nil => rfl
  | cons f rest ih =>
    rw [List.filter_cons]
    cases hcf : f.childFields with
    | none => simp [hcf, ih]
    | some cfs => simp [hcf, ih]

/-- C3: per fetched schema payload, the open-fields computation yields as
compounds exactly the fields declaring child fields (normalised display
name plus normalised child display names), and as primitives exactly the
fields that carry no child fields, are not referenced as another field's
child, and whose normalised name does not appear among any compound's
child names; on the documented example `{A, B:[C, D]}` the output is
primitives `[a]`, compounds `[{b, [c, d]}]`, and a standalone top-level
`C` stays out of the primitives list. -/
theorem open_fields_partition :
    (∀ n fs, (open_fields n fs).compounds =
        (fs.filter (fun f => f.childFields.isSome)).map
          (fun f => { name := normalize_display f.displayName
                      childFields := (f.childFields.getD []).map
                        (fun c => normalize_display c.displayName) }))
    ∧ (∀ n fs, (open_fields n fs).primitives =
        (fs.filter (fun f =>
            f.childFields.isNone
            && !((_get_child_field_names fs).contains f.displayName)
            && !((fs.flatMap (fun g => (g.childFields.getD []).map
                  (fun c => normalize_display c.displayName))).contains
                  (normalize_display f.displayName)))).map
          (fun f => normalize_display f.displayName))
    ∧ open_fields "blk" [⟨"A", none⟩, ⟨"B", some [⟨"C", "C"⟩, ⟨"D", "D"⟩]⟩]
        = ⟨"blk", ["a"], [⟨"b", ["c", "d"]⟩]⟩
    ∧ (open_fields "blk" [⟨"A", none⟩, ⟨"B", some [⟨"C", "C"⟩, ⟨"D", "D"⟩]⟩,
        ⟨"C", none⟩]).primitives = ["a"] := by
  refine ⟨fun n fs => ?_, fun n fs => ?_, rfl, rfl⟩
  · show _retrieve_compounds fs = _
    exact retrieve_compounds_eq fs
  · show (_retrieve_primitives fs).filter _ = _
    rw [_retrieve_primitives]
    rw [filter_map_filter]
    rw [compound_children_flatten]
    rw [List.filter_congr (fun f _ => by
      rw [show ∀ a b c : Bool, ((b && a) && c) = ((a && b) && c) from by decide])]

/-- Membership version of field-list well-formedness. -/
lemma wf_fields_mem {fs : List (String × FieldInfo × PyVal)}
    (h : wf_fields fs = true) {t : String × FieldInfo × PyVal} (ht : t ∈ fs) :
    wf_field t.2.1 t.2.2 = true := by
  induction fs with
  | nil => cases ht
  | cons x rest ih =>
    rw [show x :: rest = (x.1, x.2.1, x.2.2) :: rest from rfl,
      wf_fields_cons, Bool.and_eq_true] at h
    rcases List.mem_cons.mp ht with rfl | hmem
    · exact h.1
    · exact ih h.2 hmem

/-- A repeatable compound field all of whose instances have only null
leaves gets the per-field verdict `empty`, provided its value has the
promised list shape. -/
lemma field_empty_of_rep_compound (i : FieldInfo) (v : PyVal)
    (hc : (i.typeClass == "compound") = true) (hm : i.multiple = true)
    (hwf : wf_field i v = true) (hleaves : all_leaves_null v = true) :
    field_empty i v = true := by
  rw [wf_field_def, if_pos (by simp [hc, hm])] at hwf
  rw [field_empty_def, if_pos (by simp [hc, hm])]
  cases v with
  | vlist xs =>
    have h1 : wf_entries xs = true := by simpa using hwf
    have h2 : leaves_null_list xs = true := by simpa using hleaves
    have h3 := entries_empty_eq_leaves xs h1
    simpa [h3] using h2
  | vnone => simp at hwf
  | vstr s => simp at hwf
  | vnode gs => simp at hwf

lemma filterMap_skip (g : String × PyVal → BlockRow)
    (l : List (String × PyVal)) :
    l.filterMap (fun p => if is_empty p.2 then none else some (g p)) =
      (l.filter (fun p => !(is_empty p.2))).map g := by
  induction l with
  | nil => rfl
  | cons x xs ih =>
    by_cases h : is_empty x.2 <;> simp [h, ih]

/-- C6: during ingestion of a fresh DOI, exactly the non-`_is_empty`
blocks are persisted — and a block in which every field is null, or in
which every field is a repeatable compound all of whose instances carry
no non-null leaf, satisfies `_is_empty`, so no `Metadatablock` row (and
hence no `Compound` or `Field` row) is created for it. -/
theorem empty_blocks_not_persisted (fresh_id su d : String)
    (tok : Option String) (store : Store) (remote : List (String × PyVal))
    (h : store.reviews.filter (fun x => x.doi == d) = []) :
    ((fetch_dataset fresh_id (some su) (some d) tok store remote).2.reviews =
      store.reviews ++
        [{ id := fresh_id, doi := d, site_url := su, revision := 1,
           blocks := (remote.filter (fun p => !(is_empty p.2))).map
             (fun p => { name := p.1,
                         primitives := (process_block_val p.2).1,
                         compounds := (process_block_val p.2).2 }) }])
    ∧ (∀ fs, wf_fields fs = true →
        (fs.all (fun t => is_none t.2.2) = true
          ∨ fs.all (fun t => (t.2.1.typeClass == "compound")
              && t.2.1.multiple && all_leaves_null t.2.2) = true) →
        is_empty (.vnode fs) = true) := by
  constructor
  · simp only [fetch_dataset, h, List.isEmpty_nil, if_true]
    rw [filterMap_skip
      (fun p => { name := p.1, primitives := (process_block_val p.2).1,
                  compounds := (process_block_val p.2).2 })]
  · intro fs hwf hcase
    rw [is_empty_vnode, is_empty_loop_eq_all, List.all_eq_true]
    intro t ht
    cases hcase with
    | inl hnull =>
      have hn := List.all_eq_true.mp hnull t ht
      have hv : t.2.2 = .vnone := by
        cases hveq : t.2.2 <;> rw [hveq] at hn <;> simp [is_none] at hn ⊢
      rw [hv]
      exact field_empty_vnone t.2.1
    | inr hcomp =>
      have hc := List.all_eq_true.mp hcomp t ht
      simp only [Bool.and_eq_true] at hc
      exact field_empty_of_rep_compound t.2.1 t.2.2 hc.1.1 hc.1.2
        (wf_fields_mem hwf ht) hc.2

/-- The claim-C6 theorem applied to a fresh DOI whose remote document has
one all-null block: the created review holds no block row. -/
theorem empty_blocks_not_persisted_witness :
    (fetch_dataset "id1" (some "http://dv") (some "10.2/d") none ⟨[]⟩
        [("blockA", .vnode [("x", ⟨"primitive", false, "dx"⟩, .vnone)])]).2.reviews =
      [⟨"id1", "10.2/d", "http://dv", 1, []⟩]
    ∧ wf_fields [("x", ⟨"primitive", false, "dx"⟩, .vnone)] = true
    ∧ is_empty (.vnode [("x", ⟨"primitive", false, "dx"⟩, .vnone)]) = true := by
  have h := empty_blocks_not_persisted "id1" "http://dv" "10.2/d" none ⟨[]⟩
    [("blockA", .vnode [("x", ⟨"primitive", false, "dx"⟩, .vnone)])] rfl
  have hwf : wf_fields [("x", ⟨"primitive", false, "dx"⟩, .vnone)] = true := by
    simp [wf_field_def, is_leaf]
  have hemp := h.2 _ hwf (Or.inl (by simp [is_none]))
  refine ⟨?_, hwf, hemp⟩
  rw [h.1]
  simp [hemp]

/-- The primitive `Field` rows sitting directly under a review's
metadatablocks. -/
def direct_primitive_rows (r : ReviewRow) : List FieldRow :=
  r.blocks.flatMap (fun b => b.primitives)

/-- The primitive `Field` rows sitting under the compounds of a review's
metadatablocks. -/
def compound_primitive_rows (r : ReviewRow) : List FieldRow :=
  r.blocks.flatMap (fun b => b.compounds.flatMap (fun c => c.fields))

/-- The example review of the field-count claim: one block with three
direct primitives (two accepted) and one compound holding two primitives
(one accepted). -/
def c4_review : ReviewRow :=
  { id := "r1", doi := "10.1/x", site_url := "http://dv", revision := 1,
    blocks :=
      [{ name := "citation",
         primitives :=
           [⟨"title", "d", "T", [("Original", "T")], some true⟩,
            ⟨"subtitle", "d", "S", [("Original", "S")], some true⟩,
            ⟨"alternative", "d", "A", [("Original", "A")], some false⟩],
         compounds :=
           [⟨"author",
             [⟨"authorName", "d", "N", [("Original", "N")], some true⟩,
              ⟨"authorAffiliation", "d", "U", [("Original", "U")], none⟩]⟩] }] }

/-- The store holding only `c4_review`. -/
def c4_store : Store := ⟨[c4_review]⟩

/-- A review whose single block carries one accepted primitive and no
compounds: the compound-side left join then returns one `NULL` row. -/
def c4b_review : ReviewRow :=
  { id := "r2", doi := "10.2/y", site_url := "http://dv", revision := 1,
    blocks :=
      [{ name := "geospatial",
         primitives :=
           [⟨"country", "d", "DE", [("Original", "DE")], some true⟩],
         compounds := [] }] }

/-- The store holding only `c4b_review`. -/
def c4b_store : Store := ⟨[c4b_review]⟩

/-- Counterexample to C4 as stated: on the claim's own example — 3 direct
primitives (2 accepted) and 2 compound-owned primitives (1 accepted) —
`get_field_count` returns a total of 4, not the combined count 5, because
the code subtracts one from the summed list lengths; the accepted count 3
does match the literal-true flags. -/
theorem get_field_count_off_by_one :
    (direct_primitive_rows c4_review).length = 3
    ∧ (compound_primitive_rows c4_review).length = 2
    ∧ (get_field_count "r1" c4_store).1 = 4
    ∧ (get_field_count "r1" c4_store).2 = 3
    ∧ ¬((get_field_count "r1" c4_store).1 =
        ((direct_primitive_rows c4_review).length : Int)
          + ((compound_primitive_rows c4_review).length : Int)) :=
  ⟨rfl, rfl, rfl, rfl, by decide⟩

/-- The number of rows the left-joined direct-primitives query returns
for one review: its direct primitive `Field` rows, plus one `NULL` row
for every block without direct primitives, or a single `NULL` row when
the review has no blocks. -/
def left_join_count_primitives (r : ReviewRow) : Nat :=
  if r.blocks = [] then 1
  else (r.blocks.map (fun b => max b.primitives.length 1)).sum

/-- The number of rows the left-joined compound-primitives query returns
for one review: its compound-owned primitive `Field` rows, plus one
`NULL` row for every block without compounds and one for every compound
without fields, or a single `NULL` row when the review has no blocks. -/
def left_join_count_compound_primitives (r : ReviewRow) : Nat :=
  if r.blocks = [] then 1
  else (r.blocks.map (fun b =>
    if b.compounds = [] then 1
    else (b.compounds.map (fun c => max c.fields.length 1)).sum)).sum

lemma len_join_rows_primitives (bs : List BlockRow) :
    (bs.flatMap (fun b => if b.primitives = [] then [none]
        else b.primitives.map (fun f => f.accepted))).length =
      (bs.map (fun b => max b.primitives.length 1)).sum := by
  induction bs with
  | nil => rfl
  | cons b rest ih =>
    rw [List.flatMap_cons, List.length_append, ih, List.map_cons,
      List.sum_cons]
    congr 1
    by_cases hp : b.primitives = []
    · simp [hp]
    · have hpos := List.length_pos.mpr hp
      rw [if_neg hp, List.length_map]
      omega

lemma len_join_rows_comps (cs : List CompoundRow) :
    (cs.flatMap (fun c => if c.fields = [] then [none]
        else c.fields.map (fun f => f.accepted))).length =
      (cs.map (fun c => max c.fields.length 1)).sum := by
  induction cs with
  | nil => rfl
  | cons c rest ih =>
    rw [List.flatMap_cons, List.length_append, ih, List.map_cons,
      List.sum_cons]
    congr 1
    by_cases hf : c.fields = []
    · simp [hf]
    · have hpos := List.length_pos.mpr hf
      rw [if_neg hf, List.length_map]
      omega

lemma len_join_rows_blocks_comp (bs : List BlockRow) :
    (bs.flatMap (fun b => if b.compounds = [] then [none]
        else b.compounds.flatMap (fun c => if c.fields = [] then [none]
          else c.fields.map (fun f => f.accepted)))).length =
      (bs.map (fun b => if b.compounds = [] then 1
        else (b.compounds.map (fun c => max c.fields.length 1)).sum)).sum := by
  induction bs with
  | nil => rfl
  | cons b rest ih =>
    rw [List.flatMap_cons, List.length_append, ih, List.map_cons,
      List.sum_cons]
    congr 1
    by_cases hc : b.compounds = []
    · simp [hc]
    · rw [if_neg hc, if_neg hc, len_join_rows_comps]

lemma count_true_rows_primitives (bs : List BlockRow) :
    ((bs.flatMap (fun b => if b.primitives = [] then [none]
        else b.primitives.map (fun f => f.accepted))).filter
      (fun x => x == some true)).length =
      ((bs.flatMap (fun b => b.primitives)).filter
        (fun f => f.accepted == some true)).length := by
  induction bs with
  | nil => rfl
  | cons b rest ih =>
    rw [List.flatMap_cons, List.flatMap_cons, List.filter_append,
      List.filter_append, List.length_append, List.length_append, ih]
    congr 1
    by_cases hp : b.primitives = []
    · simp [hp]
    · rw [if_neg hp, List.filter_map, List.length_map]
      simp [Function.comp_def]

lemma count_true_rows_comps (cs : List CompoundRow) :
    ((cs.flatMap (fun c => if c.fields = [] then [none]
        else c.fields.map (fun f => f.accepted))).filter
      (fun x => x == some true)).length =
      ((cs.flatMap (fun c => c.fields)).filter
        (fun f => f.accepted == some true)).length := by
  induction cs with
  | nil => rfl
  | cons c rest ih =>
    rw [List.flatMap_cons, List.flatMap_cons, List.filter_append,
      List.filter_append, List.length_append, List.length_append, ih]
    congr 1
    by_cases hf : c.fields = []
    · simp [hf]
    · rw [if_neg hf, List.filter_map, List.length_map]
      simp [Function.comp_def]

lemma count_true_rows_blocks_comp (bs : List BlockRow) :
    ((bs.flatMap (fun b => if b.compounds = [] then [none]
        else b.compounds.flatMap (fun c => if c.fields = [] then [none]
          else c.fields.map (fun f => f.accepted)))).filter
      (fun x => x == some true)).length =
      ((bs.flatMap (fun b => b.compounds.flatMap (fun c => c.fields))).filter
        (fun f => f.accepted == some true)).length := by
  induction bs with
  | nil => rfl
  | cons b rest ih =>
    rw [List.flatMap_cons, List.flatMap_cons, List.filter_append,
      List.filter_append, List.length_append, List.length_append, ih]
    congr 1
    by_cases hc : b.compounds = []
    · simp [hc]
    · rw [if_neg hc, count_true_rows_comps]

lemma len_join_block_primitives (r : ReviewRow) :
    (join_block_primitives r).length = left_join_count_primitives r := by
  rw [join_block_primitives, left_join_count_primitives]
  by_cases hb : r.blocks = []
  · rw [if_pos hb, if_pos hb]
    rfl
  · rw [if_neg hb, if_neg hb, len_join_rows_primitives]

lemma len_join_compound_primitives (r : ReviewRow) :
    (join_compound_primitives r).length =
      left_join_count_compound_primitives r := by
  rw [join_compound_primitives, left_join_count_compound_primitives]
  by_cases hb : r.blocks = []
  · rw [if_pos hb, if_pos hb]
    rfl
  · rw [if_neg hb, if_neg hb, len_join_rows_blocks_comp]

lemma count_true_join_block (r : ReviewRow) :
    ((join_block_primitives r).filter (fun x => x == some true)).length =
      ((direct_primitive_rows r).filter
        (fun f => f.accepted == some true)).length := by
  rw [join_block_primitives, direct_primitive_rows]
  by_cases hb : r.blocks = []
  · rw [hb]
    rfl
  · rw [if_neg hb, count_true_rows_primitives]

lemma count_true_join_compound (r : ReviewRow) :
    ((join_compound_primitives r).filter (fun x => x == some true)).length =
      ((compound_primitive_rows r).filter
        (fun f => f.accepted == some true)).length := by
  rw [join_compound_primitives, compound_primitive_rows]
  by_cases hb : r.blocks = []
  · rw [hb]
    rfl
  · rw [if_neg hb, count_true_rows_blocks_comp]

/-- C4 (amended): for every stored review (the unique match for its id),
the field-count endpoint returns a total equal to the row count of the
left-joined direct-primitives query plus the row count of the left-joined
compound-primitives query MINUS ONE — the row counts being the primitive
`Field` rows plus one `NULL` row per join miss (block without direct
primitives, block without compounds, compound without fields, review
without blocks) — and an accepted count equal to the number of primitive
`Field` rows, direct or compound-owned, whose accepted flag is literally
true. -/
theorem get_field_count_amended (store : Store) (rid : String)
    (r : ReviewRow)
    (hfind : store.reviews.filter (fun x => x.id == rid) = [r]) :
    (get_field_count rid store).1 =
      ((left_join_count_primitives r : Int)
        + (left_join_count_compound_primitives r : Int)) - 1
    ∧ (get_field_count rid store).2 =
      ((direct_primitive_rows r ++ compound_primitive_rows r).filter
        (fun f => f.accepted == some true)).length := by
  simp only [get_field_count, hfind, List.flatMap_cons, List.flatMap_nil,
    List.append_nil]
  constructor
  · rw [len_join_block_primitives, len_join_compound_primitives]
  · rw [List.filter_append, List.length_append, count_true_join_block,
      count_true_join_compound, List.filter_append, List.length_append]

/-- The claim-C4 amended theorem applied to two stores: the claim's own
example (3 direct, 2 compound-owned primitives: total 4 = 3 + 2 − 1,
accepted 3) and a review whose single block has one primitive and no
compounds, where the compound-side join contributes its NULL row (total
1 = 1 + 1 − 1, accepted 1). -/
theorem get_field_count_amended_witness :
    ((get_field_count "r1" c4_store).1 =
      ((left_join_count_primitives c4_review : Int)
        + (left_join_count_compound_primitives c4_review : Int)) - 1
    ∧ (get_field_count "r1" c4_store).2 =
      ((direct_primitive_rows c4_review
          ++ compound_primitive_rows c4_review).filter
        (fun f => f.accepted == some true)).length)
    ∧ ((get_field_count "r2" c4b_store).1 =
      ((left_join_count_primitives c4b_review : Int)
        + (left_join_count_compound_primitives c4b_review : Int)) - 1
    ∧ (get_field_count "r2" c4b_store).2 =
      ((direct_primitive_rows c4b_review
          ++ compound_primitive_rows c4b_review).filter
        (fun f => f.accepted == some true)).length)
    ∧ (get_field_count "r1" c4_store).1 = 4
    ∧ (get_field_count "r2" c4b_store).1 = 1
    ∧ (get_field_count "r2" c4b_store).2 = 1 :=
  ⟨get_field_count_amended c4_store "r1" c4_review rfl,
   get_field_count_amended c4b_store "r2" c4b_review rfl,
   rfl, rfl, rfl⟩
